import Mathlib

/-!
Verification of the request-handling core of `talon-one/go-httphandler`.

The development shallowly embeds the Go sources:

* `safeResponseWriter` (the write-once guard around the response sink),
* `getPreferredContentType` and the encoder selection of `Handler.sendError`
  (content negotiation),
* `safeHandlerCall` (panic containment),
* `Handler.HandleFunc` (the per-request orchestration), and
* the registry mutators `Options.SetEncoder` / `Options.SetEncoders` and the
  merge performed by `New`.

Encoder functions are abstracted by a type parameter `ε`; the observable
behaviour of running an encoder is supplied as a semantics function
`runEnc : ε → WireError → List String × Option String` giving the body chunks
the encoder writes through the guarded sink and the error value it returns.
Go `nil` maps, errors and function values are modelled with `Option`; Go map
values are modelled as association lists with insert-or-overwrite.
-/

namespace GoHttpHandler

/-- Model of Go `strings.ToLower` (characterwise lowercasing). -/
def toLowerStr (s : String) : String := ⟨s.data.map Char.toLower⟩

/-- Go map assignment `m[k] = v` on the association-list model of
`map[string]EncodeFunc`: overwrite the binding of `k` if present, else append. -/
def insertEnc {ε : Type} : List (String × ε) → String → ε → List (String × ε)
  | [], k, v => [(k, v)]
  | p :: rest, k, v => if p.1 = k then (k, v) :: rest else p :: insertEnc rest k v

/-- Go map lookup `m[k]` (`nil` when the key is absent). -/
def lookupEnc {ε : Type} : List (String × ε) → String → Option ε
  | [], _ => none
  | p :: rest, k => if p.1 = k then some p.2 else lookupEnc rest k

/-- The loop body of `Options.SetEncoders` (src/options.go lines 61-63):
`for contentType, encoder := range encoders { o.Encoders[strings.ToLower(contentType)] = encoder }`,
merging the entries of `m` into the receiver registry `r` under lowercased keys. -/
def mergeEncoders {ε : Type} (r m : List (String × ε)) : List (String × ε) :=
  m.foldl (fun acc p => insertEnc acc (toLowerStr p.1) p.2) r

/-- Outcome of a Go call: normal value, returned `error`, or runtime panic. -/
inductive GoResult (α : Type) where
  | ok (val : α)
  | err (msg : String)
  | panics (msg : String)
  deriving DecidableEq

/-- `Options.SetEncoders` (src/options.go lines 57-65). The receiver's
`Encoders` field and the argument are `Option`-wrapped to model Go `nil` maps.
Assigning into a `nil` receiver map while ranging over a non-empty argument is
a Go runtime panic ("assignment to entry in nil map"); `SetEncoders` has no
nil-receiver guard (unlike `SetEncoder`). -/
def SetEncoders {ε : Type} (recv arg : Option (List (String × ε))) :
    GoResult (Option (List (String × ε))) :=
  match arg with
  | none => GoResult.err "encoders cannot be nil"
  | some m =>
    match recv with
    | some r => GoResult.ok (some (mergeEncoders r m))
    | none =>
      if m.isEmpty then GoResult.ok none
      else GoResult.panics "assignment to entry in nil map"

/-- `Options.SetEncoder` (src/options.go lines 68-80): validates the content
type and the encoder, allocates the map if the receiver's is `nil`, then
inserts under the lowercased key. -/
def SetEncoder {ε : Type} (recv : Option (List (String × ε)))
    (contentType : String) (enc : Option ε) : GoResult (List (String × ε)) :=
  if contentType = "" then GoResult.err "content-type cannot be empty"
  else
    match enc with
    | none => GoResult.err "encoder cannot be nil"
    | some e => GoResult.ok (insertEnc (recv.getD []) (toLowerStr contentType) e)

/-- The registry `New` leaves behind when the caller supplied a non-nil
`Options.Encoders` map (src/unnamed/part_000 line 29):
`options.SetEncoders(options.Encoders)` ranges over the map while inserting
lowercased copies into that same map, so every original entry stays and the
lowercased keys are added. -/
def newSelfMerge {ε : Type} (m : List (String × ε)) : List (String × ε) :=
  mergeEncoders m m

/-- The characters before the first `;` — the part of an Accept value ahead of
the parameter section. -/
def beforeSemi : List Char → List Char
  | [] => []
  | c :: rest => if c = ';' then [] else c :: beforeSemi rest

/-- Strip leading and trailing whitespace from a character list. -/
def trimChars (l : List Char) : List Char :=
  ((l.dropWhile Char.isWhitespace).reverse.dropWhile Char.isWhitespace).reverse

/-- Model of the fragment of Go `mime.ParseMediaType` that
`getPreferredContentType` relies on: drop everything from the first `;`
(the parameters, e.g. `q=` weights), trim surrounding whitespace, lowercase;
an empty media type is a parse error. -/
def parseMediaType (v : String) : Option String :=
  let t : List Char := (trimChars (beforeSemi v.data)).map Char.toLower
  match t with
  | [] => none
  | _ => some ⟨t⟩

/-- One iteration of the `getPreferredContentType` loop (src/unnamed/part_000
lines 214-224): parse the Accept value, lowercase the bare media type, look it
up in the registry. -/
def acceptMatch {ε : Type} (encoders : List (String × ε)) (v : String) :
    Option (ε × String) :=
  match parseMediaType v with
  | none => none
  | some mt =>
    match lookupEnc encoders (toLowerStr mt) with
    | some f => some (f, toLowerStr mt)
    | none => none

/-- `getPreferredContentType` (src/unnamed/part_000 lines 211-227): scan the
Accept header values in header order and return the first registry hit;
`(none, "")` when nothing matches (including an empty value list). -/
def getPreferredContentType {ε : Type} (encoders : List (String × ε)) :
    List String → Option ε × String
  | [] => (none, "")
  | v :: rest =>
    match acceptMatch encoders v with
    | some p => (some p.1, p.2)
    | none => getPreferredContentType encoders rest

/-- The encoder-selection chain of `Handler.sendError` (src/unnamed/part_000
lines 132-145): a non-empty `ContentType` override is lowercased and looked up
directly, otherwise the Accept header is negotiated; if the selected encoder is
`nil` or the content type empty, the fallback pair is used (with its content
type lowercased). The final `Bool` records whether the fallback branch was
taken; it is an observation added for the theorems, not data the source
computes. -/
def negotiateContentType {ε : Type} (encoders : List (String × ε))
    (fallback : ε × String) (override : String) (accept : List String) :
    ε × String × Bool :=
  let pre : Option ε × String :=
    if override = "" then getPreferredContentType encoders accept
    else (lookupEnc encoders (toLowerStr override), toLowerStr override)
  match pre with
  | (some f, ct) =>
    if ct = "" then (fallback.1, toLowerStr fallback.2, true) else (f, ct, false)
  | (none, _) => (fallback.1, toLowerStr fallback.2, true)

/-- An operation forwarded to the underlying `http.ResponseWriter`. -/
inductive SinkEvent where
  | status (code : Nat)
  | body (bytes : String)
  | header (name value : String)
  deriving DecidableEq

/-- `safeResponseWriter` (src/unnamed/part_003): the write-once guard.
`written` is the atomic flag; `sink` is the trace of operations that were
forwarded to the wrapped writer. -/
structure safeResponseWriter where
  written : Bool
  sink : List SinkEvent
  deriving DecidableEq

/-- `newSafeResponseWriter`: fresh guard over an untouched sink. -/
def newSafeResponseWriter : safeResponseWriter := ⟨false, []⟩

/-- `safeResponseWriter.Write`: mark written and always forward the bytes. -/
def safeResponseWriter.Write (w : safeResponseWriter) (bytes : String) :
    safeResponseWriter :=
  ⟨true, w.sink ++ [SinkEvent.body bytes]⟩

/-- `safeResponseWriter.WriteHeader`: a no-op once written, otherwise mark
written and forward the status code. -/
def safeResponseWriter.WriteHeader (w : safeResponseWriter) (code : Nat) :
    safeResponseWriter :=
  if w.written then w else ⟨true, w.sink ++ [SinkEvent.status code]⟩

/-- `safeResponseWriter.Written`. -/
def safeResponseWriter.Written (w : safeResponseWriter) : Bool := w.written

/-- `w.Header().Set(name, value)`: `Header()` returns the underlying writer's
header map, so the mutation bypasses the guard and leaves `written` alone. -/
def safeResponseWriter.HeaderSet (w : safeResponseWriter) (name value : String) :
    safeResponseWriter :=
  ⟨w.written, w.sink ++ [SinkEvent.header name value]⟩

/-- A guarded-writer operation a handler may perform. -/
inductive WOp where
  | writeHeader (code : Nat)
  | write (bytes : String)
  deriving DecidableEq

/-- Dispatch one handler operation to the guard. -/
def applyWOp (w : safeResponseWriter) : WOp → safeResponseWriter
  | WOp.writeHeader c => w.WriteHeader c
  | WOp.write b => w.Write b

/-- Run a sequence of guarded-writer operations. -/
def runOps (w : safeResponseWriter) (ops : List WOp) : safeResponseWriter :=
  ops.foldl applyWOp w

/-- The status codes in a forwarded-event trace. -/
def statusesOf (l : List SinkEvent) : List Nat :=
  l.filterMap fun ev => match ev with | SinkEvent.status c => some c | _ => none

/-- The body chunks in a forwarded-event trace. -/
def bodiesOf (l : List SinkEvent) : List String :=
  l.filterMap fun ev => match ev with | SinkEvent.body b => some b | _ => none

/-- `HandlerError` (src/unnamed/part_000 lines 44-55). Go `error` values are
modelled by their messages; nilable fields by `Option`. -/
structure HandlerError where
  StatusCode : Nat
  PublicError : Option String
  InternalError : Option String
  ContentType : String
  deriving DecidableEq

/-- `WireError` (src/unnamed/part_000 lines 58-65). -/
structure WireError where
  StatusCode : Nat
  Error : String
  RequestUUID : String
  deriving DecidableEq

/-- A panic payload: either a value with error semantics (carrying its
message) or any other value (carrying its `%v` rendering). -/
inductive PanicValue where
  | errValue (msg : String)
  | otherValue (rendered : String)
  deriving DecidableEq

/-- Message of the internal error `safeHandlerCall` builds from a panic
payload: `errors.Wrap(v, "panic")` for error payloads,
`errors.Errorf("panic: %v", v)` for everything else; both render as
`"panic: "` followed by the payload's text. -/
def panicMessage : PanicValue → String
  | PanicValue.errValue m => "panic: " ++ m
  | PanicValue.otherValue s => "panic: " ++ s

/-- The `HandlerError` that `safeHandlerCall`'s deferred recovery constructs
from a panic payload (src/unnamed/part_000 lines 195-204). -/
def panicDescriptor (v : PanicValue) : HandlerError :=
  ⟨0, none, some (panicMessage v), ""⟩

/-- How a handler invocation ends: a normal return (of `nil` or a
`*HandlerError`) or a panic. -/
inductive HandlerOutcome where
  | ret (e : Option HandlerError)
  | panicsWith (v : PanicValue)
  deriving DecidableEq

/-- A handler's externally observable behaviour: the guarded-writer operations
it performs, then its outcome. -/
structure HandlerBehavior where
  ops : List WOp
  outcome : HandlerOutcome
  deriving DecidableEq

/-- One invocation of the configured `LogFunc` (src/options.go line 20),
recording the arguments it received. `publicError` is a plain `String`
because both call sites run after normalization. -/
structure LogCall where
  handlerError : String
  internalError : Option String
  publicError : String
  statusCode : Nat
  requestUUID : String
  deriving DecidableEq

/-- The parts of `Options` that `HandleFunc`/`sendError` consume, after `New`
filled every field: the encoder registry, the fallback (encoder, content type)
pair, and the panic hook. The hook receives the request context — modelled by
the request uuid stored in it — and may rewrite the descriptor. -/
structure Opts (ε : Type) where
  Encoders : List (String × ε)
  FallbackEncoderPair : ε × String
  CustomPanicHandler : String → HandlerError → HandlerError

/-- `safeHandlerCall` (src/unnamed/part_000 lines 189-209): run the handler
against the guard; on a panic, build the descriptor from the payload, hand it
to the panic hook, and return the (possibly hook-mutated) descriptor instead
of propagating. -/
def safeHandlerCall (hb : HandlerBehavior) (uuid : String)
    (ph : String → HandlerError → HandlerError) (w : safeResponseWriter) :
    safeResponseWriter × Option HandlerError :=
  let w1 := runOps w hb.ops
  match hb.outcome with
  | HandlerOutcome.ret e => (w1, e)
  | HandlerOutcome.panicsWith v => (w1, some (ph uuid (panicDescriptor v)))

/-- `Handler.sendError` (src/unnamed/part_000 lines 125-158), for a normalized
descriptor `e1`: build the `WireError`, select the encoder, set the
`Content-Type` header, commit the status through the guard, run the encoder
(its body chunks go through the guard), and log a second time if the encoder
returned an error. Returns the final guard state and the log calls made here. -/
def sendError {ε : Type} (opts : Opts ε)
    (runEnc : ε → WireError → List String × Option String)
    (e1 : HandlerError) (uuid : String) (accept : List String)
    (w : safeResponseWriter) : safeResponseWriter × List LogCall :=
  let wire : WireError := ⟨e1.StatusCode, e1.PublicError.getD "", uuid⟩
  let n := negotiateContentType opts.Encoders opts.FallbackEncoderPair
    e1.ContentType accept
  let w1 := w.HeaderSet "Content-Type" n.2.1
  let w2 := w1.WriteHeader e1.StatusCode
  let res := runEnc n.1 wire
  let w3 := res.1.foldl safeResponseWriter.Write w2
  match res.2 with
  | none => (w3, [])
  | some msg =>
    (w3, [⟨"unable to encode \"" ++ n.2.1 ++ "\": " ++ msg, e1.InternalError,
          e1.PublicError.getD "", e1.StatusCode, uuid⟩])

/-- What one request leaves behind: the trace forwarded to the underlying
response writer and the sequence of log calls. -/
structure HFResult where
  sink : List SinkEvent
  logs : List LogCall
  deriving DecidableEq

/-- `Handler.HandleFunc` (src/unnamed/part_000 lines 91-123): wrap the sink in
a fresh guard, run the handler through `safeHandlerCall`; on `nil` stop; else
normalize the zero-valued `StatusCode`/`PublicError` to `500`/`"unknown
error"`, log once, and — only if the guard saw no write — send the error body
via `sendError`. -/
def HandleFunc {ε : Type} (opts : Opts ε)
    (runEnc : ε → WireError → List String × Option String)
    (uuid : String) (accept : List String) (hb : HandlerBehavior) : HFResult :=
  let p := safeHandlerCall hb uuid opts.CustomPanicHandler newSafeResponseWriter
  match p.2 with
  | none => ⟨p.1.sink, []⟩
  | some e =>
    let status := if e.StatusCode = 0 then 500 else e.StatusCode
    let pub := e.PublicError.getD "unknown error"
    let e1 : HandlerError := ⟨status, some pub, e.InternalError, e.ContentType⟩
    let log1 : LogCall := ⟨"handler error", e1.InternalError, pub, status, uuid⟩
    if p.1.Written then ⟨p.1.sink, [log1]⟩
    else
      let q := sendError opts runEnc e1 uuid accept p.1
      ⟨q.1.sink, log1 :: q.2⟩

/-! ### Write-once guard lemmas -/

/-- The events a guard whose flag starts at `written` forwards for a given
operation sequence. -/
def guardedEvents : Bool → List WOp → List SinkEvent
  | _, [] => []
  | _, WOp.write b :: rest => SinkEvent.body b :: guardedEvents true rest
  | true, WOp.writeHeader _ :: rest => guardedEvents true rest
  | false, WOp.writeHeader c :: rest => SinkEvent.status c :: guardedEvents true rest

/-- The status codes the guard lets through: only a commit that is the very
first operation. -/
def firstCommitStatuses : List WOp → List Nat
  | WOp.writeHeader c :: _ => [c]
  | _ => []

/-- The payloads of the write operations in a sequence. -/
def writePayloads (ops : List WOp) : List String :=
  ops.filterMap fun op => match op with | WOp.write b => some b | _ => none

theorem runOps_cons (w : safeResponseWriter) (op : WOp) (rest : List WOp) :
    runOps w (op :: rest) = runOps (applyWOp w op) rest := rfl

theorem runOps_sink : ∀ (ops : List WOp) (w : safeResponseWriter),
    (runOps w ops).sink = w.sink ++ guardedEvents w.written ops := by
  intro ops
  induction ops with
  | nil => intro w; simp [runOps, guardedEvents]
  | cons op rest ih =>
    intro w
    cases op with
    | write b =>
      rw [runOps_cons]
      rw [ih (applyWOp w (WOp.write b))]
      cases hw : w.written <;>
        simp [applyWOp, safeResponseWriter.Write, guardedEvents, hw]
    | writeHeader c =>
      rw [runOps_cons]
      rw [ih (applyWOp w (WOp.writeHeader c))]
      cases hw : w.written <;>
        simp [applyWOp, safeResponseWriter.WriteHeader, guardedEvents, hw]

theorem runOps_written : ∀ (ops : List WOp) (w : safeResponseWriter),
    (runOps w ops).written = (w.written || !ops.isEmpty) := by
  intro ops
  induction ops with
  | nil => intro w; simp [runOps]
  | cons op rest ih =>
    intro w
    rw [runOps_cons, ih (applyWOp w op)]
    cases op with
    | write b => simp [applyWOp, safeResponseWriter.Write]
    | writeHeader c =>
      cases hw : w.written <;>
        simp [applyWOp, safeResponseWriter.WriteHeader, hw]

theorem statusesOf_append (a b : List SinkEvent) :
    statusesOf (a ++ b) = statusesOf a ++ statusesOf b := by
  simp [statusesOf, List.filterMap_append]

theorem bodiesOf_append (a b : List SinkEvent) :
    bodiesOf (a ++ b) = bodiesOf a ++ bodiesOf b := by
  simp [bodiesOf, List.filterMap_append]

theorem statusesOf_guardedEvents_true : ∀ ops : List WOp,
    statusesOf (guardedEvents true ops) = [] := by
  intro ops
  induction ops with
  | nil => simp [guardedEvents, statusesOf]
  | cons op rest ih =>
    cases op <;> simp [guardedEvents, statusesOf] <;>
      simpa [statusesOf] using ih

theorem statusesOf_guardedEvents_false (ops : List WOp) :
    statusesOf (guardedEvents false ops) = firstCommitStatuses ops := by
  cases ops with
  | nil => simp [guardedEvents, statusesOf, firstCommitStatuses]
  | cons op rest =>
    cases op with
    | writeHeader c =>
      simp [guardedEvents, statusesOf, firstCommitStatuses]
      simpa [statusesOf] using statusesOf_guardedEvents_true rest
    | write b =>
      simp [guardedEvents, statusesOf, firstCommitStatuses]
      simpa [statusesOf] using statusesOf_guardedEvents_true rest

theorem bodiesOf_guardedEvents : ∀ (ops : List WOp) (b : Bool),
    bodiesOf (guardedEvents b ops) = writePayloads ops := by
  intro ops
  induction ops with
  | nil => intro b; simp [guardedEvents, bodiesOf, writePayloads]
  | cons op rest ih =>
    intro b
    cases op with
    | write s =>
      simp [guardedEvents, bodiesOf, writePayloads]
      simpa [bodiesOf, writePayloads] using ih true
    | writeHeader c =>
      cases b <;> simp [guardedEvents, bodiesOf, writePayloads] <;>
        simpa [bodiesOf, writePayloads] using ih true

/-- Claim C2: on one `safeResponseWriter`, for any sequence of
`WriteHeader`/`Write` calls, the only status code forwarded to the underlying
sink is that of a `WriteHeader` that is the very first call (every later
commit is a silent no-op — in particular, for N ≥ 1 pure commit sequences the
committed code is the first call's code); `Write` always forwards its bytes,
even after `written` is true; and `Written` is true iff at least one of the
two operations ran. -/
theorem safeResponseWriter_write_once (ops : List WOp) :
    statusesOf (runOps newSafeResponseWriter ops).sink = firstCommitStatuses ops
    ∧ bodiesOf (runOps newSafeResponseWriter ops).sink = writePayloads ops
    ∧ (runOps newSafeResponseWriter ops).Written = !ops.isEmpty
    ∧ ∀ (c : Nat) (cs : List Nat),
        statusesOf (runOps newSafeResponseWriter
          ((c :: cs).map WOp.writeHeader)).sink = [c] := by
  refine ⟨?_, ?_, ?_, ?_⟩
  · rw [runOps_sink]
    show statusesOf ([] ++ guardedEvents false ops) = firstCommitStatuses ops
    rw [List.nil_append, statusesOf_guardedEvents_false]
  · rw [runOps_sink]
    show bodiesOf ([] ++ guardedEvents false ops) = writePayloads ops
    rw [List.nil_append, bodiesOf_guardedEvents]
  · rw [safeResponseWriter.Written, runOps_written]
    simp [newSafeResponseWriter]
  · intro c cs
    rw [runOps_sink]
    show statusesOf ([] ++ guardedEvents false
      (WOp.writeHeader c :: cs.map WOp.writeHeader)) = [c]
    rw [List.nil_append, statusesOf_guardedEvents_false]
    rfl

/-! ### Content negotiation lemmas -/

theorem toLowerStr_eq_empty_iff (s : String) : toLowerStr s = "" ↔ s = "" := by
  cases s with
  | mk data =>
    constructor
    · intro h
      have hd : data.map Char.toLower = [] := congrArg String.data h
      have : data = [] := List.map_eq_nil_iff.mp hd
      simp [this]
    · intro h
      have : data = [] := congrArg String.data h
      simp [toLowerStr, this]

theorem parseMediaType_some_ne_empty {v mt : String}
    (h : parseMediaType v = some mt) : mt ≠ "" := by
  unfold parseMediaType at h
  rcases hl : (trimChars (beforeSemi v.data)).map Char.toLower with _ | ⟨c, cs⟩ <;>
    rw [hl] at h
  · exact absurd h (by simp)
  · have hmt : String.mk (c :: cs) = mt := by simpa using h
    intro hemp
    rw [← hmt] at hemp
    exact absurd (congrArg String.data hemp) (by simp)

theorem acceptMatch_snd_ne_empty {ε : Type} {R : List (String × ε)} {v : String}
    {p : ε × String} (h : acceptMatch R v = some p) : p.2 ≠ "" := by
  unfold acceptMatch at h
  rcases hp : parseMediaType v with _ | mt <;> rw [hp] at h
  · exact absurd h (by simp)
  · have h3 : (match lookupEnc R (toLowerStr mt) with
        | some f => some (f, toLowerStr mt)
        | none => none) = some p := h
    rcases hk : lookupEnc R (toLowerStr mt) with _ | f <;> rw [hk] at h3
    · exact absurd h3 (by simp)
    · injection h3 with h4
      rw [← h4]
      show toLowerStr mt ≠ ""
      rw [Ne, toLowerStr_eq_empty_iff]
      exact parseMediaType_some_ne_empty hp

theorem getPreferredContentType_fst_none {ε : Type} (R : List (String × ε)) :
    ∀ accept : List String, (getPreferredContentType R accept).1 = none →
      getPreferredContentType R accept = (none, "") := by
  intro accept
  induction accept with
  | nil => intro _; rfl
  | cons v rest ih =>
    intro h
    rcases hm : acceptMatch R v with _ | p
    · rw [getPreferredContentType, hm] at h ⊢
      exact ih h
    · rw [getPreferredContentType, hm] at h
      exact absurd h (by simp)

theorem getPreferredContentType_some_ne_empty {ε : Type} (R : List (String × ε)) :
    ∀ (accept : List String) (f : ε) (ct : String),
      getPreferredContentType R accept = (some f, ct) → ct ≠ "" := by
  intro accept
  induction accept with
  | nil => intro f ct h; exact absurd h (by simp [getPreferredContentType])
  | cons v rest ih =>
    intro f ct h
    rcases hm : acceptMatch R v with _ | p
    · rw [getPreferredContentType, hm] at h
      exact ih f ct h
    · rw [getPreferredContentType, hm] at h
      have : ct = p.2 := by
        have := (Prod.mk.injEq _ _ _ _).mp h
        exact this.2.symm
      rw [this]
      exact acceptMatch_snd_ne_empty hm

/-- Claim C3: with no content-type override, `getPreferredContentType` walks
the Accept header values in header order (any `q=` weighting is stripped with
the rest of the parameters by `acceptMatch`) and returns the encoder and the
lowercased bare media type of the first value that hits the registry: if every
value of `pre` misses and `v` matches as `p`, the scan of `pre ++ v :: post`
returns `p` — later values, `post`, cannot override an earlier match. -/
theorem getPreferredContentType_first_match {ε : Type}
    (R : List (String × ε)) (pre post : List String) (v : String) (p : ε × String)
    (hpre : ∀ u ∈ pre, acceptMatch R u = none)
    (hv : acceptMatch R v = some p) :
    getPreferredContentType R (pre ++ v :: post) = (some p.1, p.2) := by
  induction pre with
  | nil => simp [getPreferredContentType, hv]
  | cons u us ih =>
    have hu : acceptMatch R u = none := hpre u (by simp)
    rw [List.cons_append, getPreferredContentType, hu]
    exact ih fun x hx => hpre x (by simp [hx])

/-- Witness for C3, instantiating the claim's registry-{A,B}/Accept-[B,A]
scenario with `q=` weights that would reverse the order if they were honored:
the first listed type wins. -/
theorem getPreferredContentType_first_match_witness :
    getPreferredContentType [("application/json", (1 : Nat)), ("text/html", 2)]
      ["text/html;q=0.1", "application/json;q=0.9"] = (some 2, "text/html") := by
  have h := getPreferredContentType_first_match
    [("application/json", (1 : Nat)), ("text/html", 2)]
    [] ["application/json;q=0.9"] "text/html;q=0.1" (2, "text/html")
    (fun u hu => absurd hu (List.not_mem_nil u)) (by decide)
  simpa using h

/-- Claim C4: a non-empty `ContentType` override is lowercased and looked up
directly; the Accept header is never consulted (the negotiation result does
not depend on it at all), and a registered override returns its encoder with
the lowercased override as content type. -/
theorem negotiate_override_bypass {ε : Type} (R : List (String × ε))
    (fb : ε × String) (ov : String) (accept accept2 : List String)
    (hov : ov ≠ "") :
    negotiateContentType R fb ov accept = negotiateContentType R fb ov accept2
    ∧ ∀ f : ε, lookupEnc R (toLowerStr ov) = some f →
        negotiateContentType R fb ov accept = (f, toLowerStr ov, false) := by
  constructor
  · simp [negotiateContentType, hov]
  · intro f hf
    have hne : toLowerStr ov ≠ "" := by
      rw [Ne, toLowerStr_eq_empty_iff]; exact hov
    simp [negotiateContentType, hov, hf, hne]

/-- Witness for C4: override `"TEXT/HTML"` wins over an Accept header that
would have matched `application/json`. -/
theorem negotiate_override_bypass_witness :
    negotiateContentType [("text/html", (1 : Nat)), ("application/json", 2)]
      (9, "application/octet-stream") "TEXT/HTML" ["application/json"]
    = (1, "text/html", false) := by
  have h := (negotiate_override_bypass
    [("text/html", (1 : Nat)), ("application/json", 2)]
    (9, "application/octet-stream") "TEXT/HTML" ["application/json"] []
    (by decide)).2 1 (by decide)
  exact h.trans (by decide)

/-- Claim C5 counterexample: with registry key `application/json`, an
unregistered override `text/plain`, and an Accept header that does match
`application/json`, the code still returns the fallback pair — the claimed
equivalence "fallback iff (override absent or unregistered) AND (no Accept
value matches)" is false at this input, because a non-empty override skips
Accept processing entirely. -/
theorem negotiate_fallback_iff_cex :
    ¬ ((((negotiateContentType [("application/json", (1 : Nat))]
            (2, "application/octet-stream") "text/plain" ["application/json"]).1,
         (negotiateContentType [("application/json", (1 : Nat))]
            (2, "application/octet-stream") "text/plain" ["application/json"]).2.1)
          = (2, "application/octet-stream"))
        ↔ ((("text/plain" = "")
              ∨ lookupEnc [("application/json", (1 : Nat))]
                  (toLowerStr "text/plain") = none)
            ∧ getPreferredContentType [("application/json", (1 : Nat))]
                ["application/json"] = (none, ""))) := by decide

/-- Claim C5 (amended): negotiation takes the fallback branch iff either the
override is absent and no Accept value matches any registered key, or the
override is present but names an unregistered type (in which case the Accept
header is never consulted); whenever the fallback branch is taken, the result
is the fallback encoder with its lowercased content type. -/
theorem negotiate_fallback_iff_amended {ε : Type} (R : List (String × ε))
    (fb : ε × String) (ov : String) (accept : List String) :
    ((negotiateContentType R fb ov accept).2.2 = true ↔
      ((ov = "" ∧ getPreferredContentType R accept = (none, ""))
        ∨ (ov ≠ "" ∧ lookupEnc R (toLowerStr ov) = none)))
    ∧ ((negotiateContentType R fb ov accept).2.2 = true →
        ((negotiateContentType R fb ov accept).1,
          (negotiateContentType R fb ov accept).2.1)
          = (fb.1, toLowerStr fb.2)) := by
  by_cases hov : ov = ""
  · subst hov
    rcases hres : getPreferredContentType R accept with ⟨f?, ct⟩
    cases f? with
    | none =>
      have hct : ct = "" := by
        have h0 := getPreferredContentType_fst_none R accept (by rw [hres])
        rw [hres] at h0
        exact ((Prod.mk.injEq _ _ _ _).mp h0).2
      subst hct
      constructor
      · simp [negotiateContentType, hres]
      · intro _
        simp [negotiateContentType, hres]
    | some f =>
      have hct : ct ≠ "" := getPreferredContentType_some_ne_empty R accept f ct hres
      constructor
      · simp [negotiateContentType, hres, hct]
      · intro hflag
        exact absurd hflag (by simp [negotiateContentType, hres, hct])
  · rcases hl : lookupEnc R (toLowerStr ov) with _ | f
    · constructor
      · simp [negotiateContentType, hov, hl]
      · intro _
        simp [negotiateContentType, hov, hl]
    · have hne : toLowerStr ov ≠ "" := by
        rw [Ne, toLowerStr_eq_empty_iff]; exact hov
      constructor
      · simp [negotiateContentType, hov, hl, hne]
      · intro hflag
        exact absurd hflag (by simp [negotiateContentType, hov, hl, hne])

/-- Witness for the amended C5: empty registry, no override, no Accept header
— the fallback branch fires and yields the fallback encoder with its
lowercased content type. -/
theorem negotiate_fallback_iff_amended_witness :
    ((negotiateContentType ([] : List (String × Nat)) (5, "X/Y") "" []).1,
      (negotiateContentType ([] : List (String × Nat)) (5, "X/Y") "" []).2.1)
    = (5, "x/y") := by
  have h := negotiate_fallback_iff_amended ([] : List (String × Nat))
    (5, "X/Y") "" []
  have h1 : (negotiateContentType ([] : List (String × Nat))
      (5, "X/Y") "" []).2.2 = true :=
    h.1.mpr (Or.inl ⟨rfl, rfl⟩)
  exact (h.2 h1).trans (by decide)

/-! ### Orchestrator lemmas -/

theorem foldl_Write_sink : ∀ (bs : List String) (w : safeResponseWriter),
    (bs.foldl safeResponseWriter.Write w).sink = w.sink ++ bs.map SinkEvent.body := by
  intro bs
  induction bs with
  | nil => intro w; simp
  | cons b rest ih =>
    intro w
    rw [List.foldl_cons, ih (w.Write b)]
    simp [safeResponseWriter.Write]

theorem bodiesOf_map_body (l : List String) :
    bodiesOf (l.map SinkEvent.body) = l := by
  induction l with
  | nil => rfl
  | cons b rest ih => simpa [bodiesOf] using ih

theorem statusesOf_map_body (l : List String) :
    statusesOf (l.map SinkEvent.body) = [] := by
  simp [statusesOf, List.filterMap_map, Function.comp]

/-- A handler returning `nil` (no failure): `HandleFunc` takes no action of
its own — the sink holds exactly the handler's writes, and nothing is logged. -/
theorem HandleFunc_ret_none {ε : Type} (opts : Opts ε)
    (runEnc : ε → WireError → List String × Option String)
    (uuid : String) (accept : List String) (ops : List WOp) :
    HandleFunc opts runEnc uuid accept ⟨ops, HandlerOutcome.ret none⟩ =
      ⟨(runOps newSafeResponseWriter ops).sink, []⟩ := rfl

/-- A panic is indistinguishable, downstream of `safeHandlerCall`, from a
handler returning the hook-processed panic descriptor. -/
theorem HandleFunc_panics_eq_ret {ε : Type} (opts : Opts ε)
    (runEnc : ε → WireError → List String × Option String)
    (uuid : String) (accept : List String) (ops : List WOp) (v : PanicValue) :
    HandleFunc opts runEnc uuid accept ⟨ops, HandlerOutcome.panicsWith v⟩ =
      HandleFunc opts runEnc uuid accept
        ⟨ops, HandlerOutcome.ret
          (some (opts.CustomPanicHandler uuid (panicDescriptor v)))⟩ := rfl

/-- Closed form of `HandleFunc` for a failing handler that performed no write:
normalize, log once, set the negotiated Content-Type, commit the normalized
status, run the encoder on the normalized WireError, and log a second time
exactly when the encoder returns an error. -/
theorem HandleFunc_no_write_eq {ε : Type} (opts : Opts ε)
    (runEnc : ε → WireError → List String × Option String)
    (uuid : String) (accept : List String) (e : HandlerError) :
    HandleFunc opts runEnc uuid accept ⟨[], HandlerOutcome.ret (some e)⟩ =
      ⟨[SinkEvent.header "Content-Type"
          (negotiateContentType opts.Encoders opts.FallbackEncoderPair
            e.ContentType accept).2.1,
        SinkEvent.status (if e.StatusCode = 0 then 500 else e.StatusCode)]
        ++ (runEnc (negotiateContentType opts.Encoders opts.FallbackEncoderPair
              e.ContentType accept).1
            ⟨if e.StatusCode = 0 then 500 else e.StatusCode,
             e.PublicError.getD "unknown error", uuid⟩).1.map SinkEvent.body,
       ⟨"handler error", e.InternalError, e.PublicError.getD "unknown error",
         if e.StatusCode = 0 then 500 else e.StatusCode, uuid⟩ ::
       (match (runEnc (negotiateContentType opts.Encoders opts.FallbackEncoderPair
              e.ContentType accept).1
            ⟨if e.StatusCode = 0 then 500 else e.StatusCode,
             e.PublicError.getD "unknown error", uuid⟩).2 with
        | none => []
        | some msg =>
          [⟨"unable to encode \""
              ++ (negotiateContentType opts.Encoders opts.FallbackEncoderPair
                   e.ContentType accept).2.1 ++ "\": " ++ msg,
            e.InternalError, e.PublicError.getD "unknown error",
            if e.StatusCode = 0 then 500 else e.StatusCode, uuid⟩])⟩ := by
  rcases hres : runEnc (negotiateContentType opts.Encoders opts.FallbackEncoderPair
      e.ContentType accept).1
      ⟨if e.StatusCode = 0 then 500 else e.StatusCode,
       e.PublicError.getD "unknown error", uuid⟩ with ⟨bodies, encErr⟩
  cases encErr <;>
    simp [HandleFunc, safeHandlerCall, sendError, runOps, newSafeResponseWriter,
      safeResponseWriter.Written, safeResponseWriter.HeaderSet,
      safeResponseWriter.WriteHeader, hres, foldl_Write_sink]

/-- Closed form of `HandleFunc` for a failing handler that did write:
normalize, log once, and stop — the sink holds exactly the handler's writes. -/
theorem HandleFunc_written_eq {ε : Type} (opts : Opts ε)
    (runEnc : ε → WireError → List String × Option String)
    (uuid : String) (accept : List String) (ops : List WOp) (e : HandlerError)
    (h : ops ≠ []) :
    HandleFunc opts runEnc uuid accept ⟨ops, HandlerOutcome.ret (some e)⟩ =
      ⟨(runOps newSafeResponseWriter ops).sink,
       [⟨"handler error", e.InternalError, e.PublicError.getD "unknown error",
         if e.StatusCode = 0 then 500 else e.StatusCode, uuid⟩]⟩ := by
  have hw : (runOps newSafeResponseWriter ops).written = true := by
    rw [runOps_written]
    cases ops with
    | nil => exact absurd rfl h
    | cons op rest => simp [newSafeResponseWriter]
  simp [HandleFunc, safeHandlerCall, safeResponseWriter.Written, hw]

/-- Claim C8: a handler that already committed a status or wrote body bytes
through the guard and then also returns a FailureDescriptor gets exactly the
single log call and nothing more: no error body, no Content-Type header, no
status commit — the final sink trace is exactly what the handler itself
produced. -/
theorem already_written_partial_response_stands {ε : Type} (opts : Opts ε)
    (runEnc : ε → WireError → List String × Option String)
    (uuid : String) (accept : List String) (ops : List WOp) (e : HandlerError)
    (h : ops ≠ []) :
    HandleFunc opts runEnc uuid accept ⟨ops, HandlerOutcome.ret (some e)⟩ =
      ⟨(runOps newSafeResponseWriter ops).sink,
       [⟨"handler error", e.InternalError, e.PublicError.getD "unknown error",
         if e.StatusCode = 0 then 500 else e.StatusCode, uuid⟩]⟩ :=
  HandleFunc_written_eq opts runEnc uuid accept ops e h

/-- Witness for C8, the spec's Scenario C: the handler writes status 400 and
body "bad request", then returns a descriptor with status 500 — the response
stays 400/"bad request" and one log call is made. -/
theorem already_written_partial_response_stands_witness :
    HandleFunc (ε := Nat)
      ⟨[("application/json", 1)], (1, "application/json"), fun _ e => e⟩
      (fun _ w => ([w.Error], none)) "u" []
      ⟨[WOp.writeHeader 400, WOp.write "bad request"],
        HandlerOutcome.ret (some ⟨500, none, none, ""⟩)⟩ =
      ⟨[SinkEvent.status 400, SinkEvent.body "bad request"],
       [⟨"handler error", none, "unknown error", 500, "u"⟩]⟩ := by
  have h := already_written_partial_response_stands (ε := Nat)
    ⟨[("application/json", 1)], (1, "application/json"), fun _ e => e⟩
    (fun _ w => ([w.Error], none)) "u" []
    [WOp.writeHeader 400, WOp.write "bad request"] ⟨500, none, none, ""⟩
    (by decide)
  exact h.trans (by decide)

/-- Claim C7: the zero-valued fields of a returned FailureDescriptor are
normalized — `StatusCode` 0 becomes 500 and an absent `PublicError` becomes
"unknown error" — before the logging hook runs and before any encoding: the
first log call carries the normalized status and public error, and when the
handler had not written, the committed status is the normalized one and the
body is produced by the chosen encoder from the WireError built from the
normalized values. -/
theorem normalization_before_log_and_encode {ε : Type} (opts : Opts ε)
    (runEnc : ε → WireError → List String × Option String)
    (uuid : String) (accept : List String) (ops : List WOp) (e : HandlerError) :
    (HandleFunc opts runEnc uuid accept ⟨ops, HandlerOutcome.ret (some e)⟩).logs.head?
      = some ⟨"handler error", e.InternalError, e.PublicError.getD "unknown error",
          if e.StatusCode = 0 then 500 else e.StatusCode, uuid⟩
    ∧ (ops = [] →
        statusesOf (HandleFunc opts runEnc uuid accept
            ⟨ops, HandlerOutcome.ret (some e)⟩).sink
          = [if e.StatusCode = 0 then 500 else e.StatusCode]
        ∧ bodiesOf (HandleFunc opts runEnc uuid accept
            ⟨ops, HandlerOutcome.ret (some e)⟩).sink
          = (runEnc (negotiateContentType opts.Encoders opts.FallbackEncoderPair
                e.ContentType accept).1
              ⟨if e.StatusCode = 0 then 500 else e.StatusCode,
               e.PublicError.getD "unknown error", uuid⟩).1) := by
  constructor
  · rcases hops : ops with _ | ⟨op, rest⟩
    · rw [HandleFunc_no_write_eq]; rfl
    · rw [HandleFunc_written_eq opts runEnc uuid accept (op :: rest) e (by simp)]
      rfl
  · intro hops
    subst hops
    rw [HandleFunc_no_write_eq]
    constructor
    · rw [statusesOf_append, statusesOf_map_body]
      simp [statusesOf]
    · rw [bodiesOf_append, bodiesOf_map_body]
      simp [bodiesOf]

/-- Witness for C7: descriptor with zero status, no public error, internal
error "boom" — logged as 500/"unknown error" and encoded from the normalized
WireError. -/
theorem normalization_before_log_and_encode_witness :
    (HandleFunc (ε := Nat) ⟨[], (7, "application/json"), fun _ e => e⟩
        (fun _ w => ([w.Error], none)) "u" [] ⟨[], HandlerOutcome.ret
          (some ⟨0, none, some "boom", ""⟩)⟩).logs.head?
      = some ⟨"handler error", some "boom", "unknown error", 500, "u"⟩
    ∧ statusesOf (HandleFunc (ε := Nat) ⟨[], (7, "application/json"), fun _ e => e⟩
        (fun _ w => ([w.Error], none)) "u" [] ⟨[], HandlerOutcome.ret
          (some ⟨0, none, some "boom", ""⟩)⟩).sink = [500]
    ∧ bodiesOf (HandleFunc (ε := Nat) ⟨[], (7, "application/json"), fun _ e => e⟩
        (fun _ w => ([w.Error], none)) "u" [] ⟨[], HandlerOutcome.ret
          (some ⟨0, none, some "boom", ""⟩)⟩).sink = ["unknown error"] := by
  have h := normalization_before_log_and_encode (ε := Nat)
    ⟨[], (7, "application/json"), fun _ e => e⟩
    (fun _ w => ([w.Error], none)) "u" [] [] ⟨0, none, some "boom", ""⟩
  refine ⟨h.1.trans (by decide), ((h.2 rfl).1).trans (by decide),
    ((h.2 rfl).2).trans (by decide)⟩

/-- Claim C6: logging cardinality — zero log calls when the handler returns no
failure; for a failing request, exactly one log call when the handler had
written already or the chosen encoder succeeds, exactly two when the chosen
encoder fails, the second carrying the "unable to encode" message naming the
content type and the encoder's error, with nothing after it (no further
encode attempt). -/
theorem logging_cardinality {ε : Type} (opts : Opts ε)
    (runEnc : ε → WireError → List String × Option String)
    (uuid : String) (accept : List String) (ops : List WOp) (e : HandlerError) :
    (HandleFunc opts runEnc uuid accept ⟨ops, HandlerOutcome.ret none⟩).logs = []
    ∧ (HandleFunc opts runEnc uuid accept
        ⟨ops, HandlerOutcome.ret (some e)⟩).logs.length
      = (if ops = [] then
          (if (runEnc (negotiateContentType opts.Encoders opts.FallbackEncoderPair
                  e.ContentType accept).1
                ⟨if e.StatusCode = 0 then 500 else e.StatusCode,
                 e.PublicError.getD "unknown error", uuid⟩).2.isSome
           then 2 else 1)
         else 1)
    ∧ (∀ msg : String, ops = [] →
        (runEnc (negotiateContentType opts.Encoders opts.FallbackEncoderPair
            e.ContentType accept).1
          ⟨if e.StatusCode = 0 then 500 else e.StatusCode,
           e.PublicError.getD "unknown error", uuid⟩).2 = some msg →
        (HandleFunc opts runEnc uuid accept
            ⟨ops, HandlerOutcome.ret (some e)⟩).logs
          = [⟨"handler error", e.InternalError, e.PublicError.getD "unknown error",
              if e.StatusCode = 0 then 500 else e.StatusCode, uuid⟩,
             ⟨"unable to encode \""
                ++ (negotiateContentType opts.Encoders opts.FallbackEncoderPair
                     e.ContentType accept).2.1 ++ "\": " ++ msg,
              e.InternalError, e.PublicError.getD "unknown error",
              if e.StatusCode = 0 then 500 else e.StatusCode, uuid⟩]) := by
  refine ⟨by rw [HandleFunc_ret_none], ?_, ?_⟩
  · rcases hops : ops with _ | ⟨op, rest⟩
    · rw [HandleFunc_no_write_eq]
      rcases hres : (runEnc (negotiateContentType opts.Encoders
          opts.FallbackEncoderPair e.ContentType accept).1
          ⟨if e.StatusCode = 0 then 500 else e.StatusCode,
           e.PublicError.getD "unknown error", uuid⟩).2 with _ | msg <;>
        simp [hres]
    · rw [HandleFunc_written_eq opts runEnc uuid accept (op :: rest) e (by simp)]
      simp
  · intro msg hops hres
    subst hops
    rw [HandleFunc_no_write_eq, hres]

/-- Witness for C6, mirroring the repository's faulty-encoder test: empty
registry, fallback `application/octet-stream`, encoder always failing with
"encoder error" — exactly the two expected log calls, the second naming the
content type and the encoder failure. -/
theorem logging_cardinality_witness :
    (HandleFunc (ε := Nat) ⟨[], (7, "application/octet-stream"), fun _ e => e⟩
        (fun _ _ => ([], some "encoder error")) "0123456789" []
        ⟨[], HandlerOutcome.ret (some ⟨0, none, none, ""⟩)⟩).logs
      = [⟨"handler error", none, "unknown error", 500, "0123456789"⟩,
         ⟨"unable to encode \"application/octet-stream\": encoder error",
          none, "unknown error", 500, "0123456789"⟩] := by
  have h := (logging_cardinality (ε := Nat)
    ⟨[], (7, "application/octet-stream"), fun _ e => e⟩
    (fun _ _ => ([], some "encoder error")) "0123456789" [] []
    ⟨0, none, none, ""⟩).2.2 "encoder error" rfl rfl
  exact h.trans (by decide)

/-- Claim C1 counterexample: a handler that commits status 200 through the
guard and then panics, with a hook that does not mutate the descriptor,
produces a completed response with status 200 — not the claimed 500. The
panic is still swallowed and logged, but "the request then completes with
status 500" fails for handlers that wrote before panicking. -/
theorem panic_containment_cex :
    statusesOf (HandleFunc (ε := Nat)
      ⟨[("application/json", 1)], (1, "application/json"), fun _ e => e⟩
      (fun _ w => ([w.Error], none)) "u1" []
      ⟨[WOp.writeHeader 200],
        HandlerOutcome.panicsWith (PanicValue.otherValue "oops")⟩).sink
      = [200]
    ∧ (200 : Nat) ≠ 500 := by decide

/-- Claim C1 (amended): for every panic payload, `safeHandlerCall` swallows
the panic and yields the descriptor built from it — `InternalError` is the
payload's message wrapped with the "panic" marker — after handing it to the
configured panic hook together with the request context; provided the handler
had not written through the guard before panicking, and the hook leaves
`StatusCode` and `PublicError` at their zero values, the request completes
with committed status 500 and the chosen encoder runs on the WireError whose
public message is "unknown error". -/
theorem panic_containment_amended {ε : Type} (opts : Opts ε)
    (runEnc : ε → WireError → List String × Option String)
    (uuid : String) (accept : List String) (v : PanicValue)
    (h1 : (opts.CustomPanicHandler uuid (panicDescriptor v)).StatusCode = 0)
    (h2 : (opts.CustomPanicHandler uuid (panicDescriptor v)).PublicError = none) :
    (safeHandlerCall ⟨[], HandlerOutcome.panicsWith v⟩ uuid
        opts.CustomPanicHandler newSafeResponseWriter).2
      = some (opts.CustomPanicHandler uuid (panicDescriptor v))
    ∧ (panicDescriptor v).InternalError = some (panicMessage v)
    ∧ statusesOf (HandleFunc opts runEnc uuid accept
        ⟨[], HandlerOutcome.panicsWith v⟩).sink = [500]
    ∧ bodiesOf (HandleFunc opts runEnc uuid accept
        ⟨[], HandlerOutcome.panicsWith v⟩).sink
      = (runEnc (negotiateContentType opts.Encoders opts.FallbackEncoderPair
            (opts.CustomPanicHandler uuid (panicDescriptor v)).ContentType accept).1
          ⟨500, "unknown error", uuid⟩).1
    ∧ (HandleFunc opts runEnc uuid accept
        ⟨[], HandlerOutcome.panicsWith v⟩).logs.head?
      = some ⟨"handler error",
          (opts.CustomPanicHandler uuid (panicDescriptor v)).InternalError,
          "unknown error", 500, uuid⟩ := by
  have hnorm := normalization_before_log_and_encode opts runEnc uuid accept []
    (opts.CustomPanicHandler uuid (panicDescriptor v))
  rw [h1, h2] at hnorm
  simp only [Option.getD] at hnorm
  refine ⟨rfl, rfl, ?_, ?_, ?_⟩
  · rw [HandleFunc_panics_eq_ret]
    simpa using (hnorm.2 (by trivial)).1
  · rw [HandleFunc_panics_eq_ret]
    simpa using (hnorm.2 (by trivial)).2
  · rw [HandleFunc_panics_eq_ret]
    simpa using hnorm.1

/-- Witness for the amended C1: identity hook, panic payload "oops", no prior
write — committed status 500 and body "unknown error". -/
theorem panic_containment_amended_witness :
    statusesOf (HandleFunc (ε := Nat)
      ⟨[("application/json", 1)], (1, "application/json"), fun _ e => e⟩
      (fun _ w => ([w.Error], none)) "u1" []
      ⟨[], HandlerOutcome.panicsWith (PanicValue.otherValue "oops")⟩).sink = [500]
    ∧ bodiesOf (HandleFunc (ε := Nat)
      ⟨[("application/json", 1)], (1, "application/json"), fun _ e => e⟩
      (fun _ w => ([w.Error], none)) "u1" []
      ⟨[], HandlerOutcome.panicsWith (PanicValue.otherValue "oops")⟩).sink
      = ["unknown error"] := by
  have h := panic_containment_amended (ε := Nat)
    ⟨[("application/json", 1)], (1, "application/json"), fun _ e => e⟩
    (fun _ w => ([w.Error], none)) "u1" [] (PanicValue.otherValue "oops") rfl rfl
  exact ⟨h.2.2.1, h.2.2.2.1.trans (by decide)⟩

/-! ### Encoder registry lemmas -/

theorem char_toNat_ofNat_lt {n : Nat} (h : n < 55296) : (Char.ofNat n).toNat = n := by
  rw [Char.ofNat, dif_pos (Or.inl h : Char.isValidCharNat n)]
  rfl

theorem char_toLower_idem (c : Char) : c.toLower.toLower = c.toLower := by
  unfold Char.toLower
  by_cases h : c.toNat ≥ 65 ∧ c.toNat ≤ 90
  · rw [if_pos h]
    have ht : (Char.ofNat (c.toNat + 32)).toNat = c.toNat + 32 :=
      char_toNat_ofNat_lt (by omega)
    rw [if_neg]
    rw [ht]
    omega
  · rw [if_neg h, if_neg h]

theorem toLowerStr_idem (s : String) :
    toLowerStr (toLowerStr s) = toLowerStr s := by
  cases s with
  | mk data =>
    show String.mk ((data.map Char.toLower).map Char.toLower)
      = String.mk (data.map Char.toLower)
    rw [List.map_map]
    congr 1
    induction data with
    | nil => rfl
    | cons c cs ih => simp [char_toLower_idem, ih]

theorem insertEnc_keys {ε : Type} (k v) : ∀ (l : List (String × ε)),
    ∀ x ∈ (insertEnc l k v).map Prod.fst, x ∈ l.map Prod.fst ∨ x = k := by
  intro l
  induction l with
  | nil => intro x hx; simp [insertEnc] at hx; exact Or.inr hx
  | cons p rest ih =>
    intro x hx
    rw [insertEnc] at hx
    by_cases hp : p.1 = k
    · rw [if_pos hp] at hx
      simp at hx
      rcases hx with hx | hx
      · exact Or.inr hx
      · exact Or.inl (by simp; exact Or.inr hx)
    · rw [if_neg hp] at hx
      simp at hx
      rcases hx with hx | hx
      · exact Or.inl (by simp [hx])
      · rcases ih x (by simpa using hx) with h | h
        · exact Or.inl (by simp; exact Or.inr (by simpa using h))
        · exact Or.inr h

theorem mergeEncoders_keys {ε : Type} : ∀ (m r : List (String × ε)),
    ∀ x ∈ (mergeEncoders r m).map Prod.fst,
      x ∈ r.map Prod.fst ∨ ∃ k0 ∈ m.map Prod.fst, x = toLowerStr k0 := by
  intro m
  induction m with
  | nil => intro r x hx; exact Or.inl hx
  | cons p rest ih =>
    intro r x hx
    have hx2 : x ∈ (mergeEncoders (insertEnc r (toLowerStr p.1) p.2) rest).map
        Prod.fst := hx
    rcases ih (insertEnc r (toLowerStr p.1) p.2) x hx2 with h | ⟨k0, hk0, hkeq⟩
    · rcases insertEnc_keys (toLowerStr p.1) p.2 r x h with h2 | h2
      · exact Or.inl h2
      · exact Or.inr ⟨p.1, by simp, h2⟩
    · exact Or.inr ⟨k0, by simp; exact Or.inr (by simpa using hk0), hkeq⟩

theorem lookupEnc_insertEnc_self {ε : Type} (k : String) (v : ε) :
    ∀ l : List (String × ε), lookupEnc (insertEnc l k v) k = some v := by
  intro l
  induction l with
  | nil => simp [insertEnc, lookupEnc]
  | cons p rest ih =>
    rw [insertEnc]
    by_cases hp : p.1 = k
    · rw [if_pos hp, lookupEnc, if_pos rfl]
    · rw [if_neg hp, lookupEnc, if_neg hp, ih]

theorem lookupEnc_insertEnc_ne {ε : Type} {x k : String} (v : ε)
    (hne : x ≠ k) : ∀ l : List (String × ε),
    lookupEnc (insertEnc l k v) x = lookupEnc l x := by
  intro l
  induction l with
  | nil =>
    simp [insertEnc, lookupEnc]
    intro h
    exact absurd h.symm hne
  | cons p rest ih =>
    rw [insertEnc]
    by_cases hp : p.1 = k
    · rw [if_pos hp]
      rw [lookupEnc, lookupEnc]
      have h1 : ¬ (k = x) := fun h => hne h.symm
      have h2 : ¬ (p.1 = x) := by rw [hp]; exact h1
      rw [if_neg h1, if_neg h2]
    · rw [if_neg hp, lookupEnc, lookupEnc, ih]

theorem mergeEncoders_preserves_key {ε : Type} :
    ∀ (m r : List (String × ε)) (k : String),
      (lookupEnc r k).isSome → (lookupEnc (mergeEncoders r m) k).isSome := by
  intro m
  induction m with
  | nil => intro r k h; exact h
  | cons p rest ih =>
    intro r k h
    show (lookupEnc (mergeEncoders (insertEnc r (toLowerStr p.1) p.2) rest) k).isSome
    apply ih
    by_cases hk : k = toLowerStr p.1
    · rw [hk, lookupEnc_insertEnc_self]; rfl
    · rw [lookupEnc_insertEnc_ne p.2 hk]; exact h

theorem mergeEncoders_mem_lookup {ε : Type} :
    ∀ (m r : List (String × ε)) (p : String × ε), p ∈ m →
      (lookupEnc (mergeEncoders r m) (toLowerStr p.1)).isSome := by
  intro m
  induction m with
  | nil => intro r p hp; exact absurd hp (List.not_mem_nil p)
  | cons q rest ih =>
    intro r p hp
    rcases List.mem_cons.mp hp with hp | hp
    · subst hp
      show (lookupEnc (mergeEncoders (insertEnc r (toLowerStr p.1) p.2) rest)
        (toLowerStr p.1)).isSome
      apply mergeEncoders_preserves_key
      rw [lookupEnc_insertEnc_self]
      rfl
    · exact ih (insertEnc r (toLowerStr q.1) q.2) p hp

/-- Claim C9 counterexample: `New` applied to a caller-supplied registry keyed
`"TEXT/HTML"` merges the map into itself, which adds the lowercased copy but
keeps the caller's original non-lowercase key in the registry. -/
theorem registry_lowercase_cex :
    (newSelfMerge [("TEXT/HTML", (1 : Nat))]).map Prod.fst
      = ["TEXT/HTML", "text/html"]
    ∧ toLowerStr "TEXT/HTML" ≠ "TEXT/HTML" := by decide

/-- Claim C9 (amended): `SetEncoder` and `SetEncoders` insert only lowercased
keys, so they preserve the invariant that every registry key is its own
lowercase form; the merge `New` performs on a supplied `Options.Encoders` map,
however, merges the map into itself: it only adds lowercased copies and keeps
the caller's original keys, so after `New` every key is either lowercase or
one of the caller's original (possibly non-lowercase) keys. -/
theorem registry_lowercase_amended {ε : Type} (r m : List (String × ε))
    (ct : String) (enc : ε)
    (hr : ∀ k ∈ r.map Prod.fst, toLowerStr k = k) :
    (∀ res : List (String × ε),
        SetEncoder (some r) ct (some enc) = GoResult.ok res →
        ∀ k ∈ res.map Prod.fst, toLowerStr k = k)
    ∧ (∀ res : List (String × ε),
        SetEncoders (some r) (some m) = GoResult.ok (some res) →
        ∀ k ∈ res.map Prod.fst, toLowerStr k = k)
    ∧ (∀ k ∈ (newSelfMerge m).map Prod.fst,
        toLowerStr k = k ∨ k ∈ m.map Prod.fst) := by
  refine ⟨?_, ?_, ?_⟩
  · intro res hres k hk
    by_cases hct : ct = ""
    · rw [SetEncoder, if_pos hct] at hres
      exact absurd hres (by simp)
    · rw [SetEncoder, if_neg hct] at hres
      have hres2 : insertEnc r (toLowerStr ct) enc = res := by
        simpa using hres
      rw [← hres2] at hk
      rcases insertEnc_keys (toLowerStr ct) enc r k hk with h | h
      · exact hr k h
      · rw [h]; exact toLowerStr_idem ct
  · intro res hres k hk
    have hres2 : mergeEncoders r m = res := by
      rw [SetEncoders] at hres
      simpa using hres
    rw [← hres2] at hk
    rcases mergeEncoders_keys m r k hk with h | ⟨k0, _, hkeq⟩
    · exact hr k h
    · rw [hkeq]; exact toLowerStr_idem k0
  · intro k hk
    rcases mergeEncoders_keys m m k hk with h | ⟨k0, _, hkeq⟩
    · exact Or.inr h
    · exact Or.inl (by rw [hkeq]; exact toLowerStr_idem k0)

/-- Witness for the amended C9: `SetEncoder` with mixed-case `"X/Y"` on an
all-lowercase registry yields a registry whose keys are all their own
lowercase form, in particular the freshly inserted `"x/y"`. -/
theorem registry_lowercase_amended_witness : toLowerStr "x/y" = "x/y" := by
  have h := (registry_lowercase_amended [("text/html", (3 : Nat))] [] "X/Y" 5
    (by decide)).1 [("text/html", 3), ("x/y", 5)] (by decide)
  exact h "x/y" (by decide)

/-- Claim C10 counterexample: calling `SetEncoders` on an `Options` whose
`Encoders` map is nil, with a non-nil non-empty argument, panics at the Go
assignment into the nil map — it does not complete successfully, because
`SetEncoders` (unlike `SetEncoder`) never allocates the receiver map. -/
theorem setEncoders_total_cex :
    SetEncoders (ε := Nat) none (some [("application/json", 1)])
      = GoResult.panics "assignment to entry in nil map" := rfl

/-- Claim C10 (amended): `SetEncoders` returns the `InvalidArgument`-style
validation error iff the argument map is nil; a non-nil argument never fails
on an individual entry — with an initialized receiver registry it completes
successfully, lowercasing and merging every entry (each supplied entry's
lowercased key is present afterwards) — but when the receiver's `Encoders`
map is nil and the argument is non-empty, the insertion panics instead of
completing. -/
theorem setEncoders_total_amended {ε : Type}
    (recv arg : Option (List (String × ε))) :
    ((∃ msg, SetEncoders recv arg = GoResult.err msg) ↔ arg = none)
    ∧ (∀ m r, arg = some m → recv = some r →
        SetEncoders recv arg = GoResult.ok (some (mergeEncoders r m)))
    ∧ (∀ m, arg = some m → recv = none → m ≠ [] →
        SetEncoders recv arg = GoResult.panics "assignment to entry in nil map")
    ∧ (∀ m r p, arg = some m → recv = some r → p ∈ m →
        (lookupEnc (mergeEncoders r m) (toLowerStr p.1)).isSome) := by
  refine ⟨⟨?_, ?_⟩, ?_, ?_, ?_⟩
  · rintro ⟨msg, hmsg⟩
    rcases arg with _ | m
    · rfl
    · exfalso
      rcases recv with _ | r
      · rw [SetEncoders] at hmsg
        rcases hm : m.isEmpty with _ | _ <;> rw [hm] at hmsg <;>
          exact absurd hmsg (by simp)
      · rw [SetEncoders] at hmsg
        exact absurd hmsg (by simp)
  · intro h
    subst h
    exact ⟨"encoders cannot be nil", rfl⟩
  · intro m r ha hr
    subst ha; subst hr
    rfl
  · intro m ha hr hm
    subst ha; subst hr
    rw [SetEncoders, if_neg (by simpa using hm)]
  · intro m r p ha hr hp
    exact mergeEncoders_mem_lookup m r p hp

/-- Witness for the amended C10: a one-entry mixed-case map merged into an
initialized registry succeeds with the lowercased key. -/
theorem setEncoders_total_amended_witness :
    SetEncoders (some [("text/html", (3 : Nat))]) (some [("Application/JSON", 4)])
      = GoResult.ok (some [("text/html", 3), ("application/json", 4)]) := by
  have h := (setEncoders_total_amended (ε := Nat)
    (some [("text/html", 3)]) (some [("Application/JSON", 4)])).2.1
    [("Application/JSON", 4)] [("text/html", 3)] rfl rfl
  exact h.trans (by decide)

end GoHttpHandler
